import Mathlib

/-!
# In-memory query-evaluation engine: formal model

A shallow embedding of the query helpers of the repository
(`applyFilter`, `applySort`, `applyPaging`, `applyQuery`, `transformFilter`).
The repository ships only the documentation of these helpers; every
operation below is therefore modelled from the specification, faithful to
its words, and the claims are settled against this model.

Conventions: the JavaScript comparator codomain {-1, 0, 1} is rendered as
`Ordering.lt / Ordering.eq / Ordering.gt`; machine numbers are `Int`;
timestamps are `Int` epoch values; a record is an ordered association list
from field names to values, and a field that is missing reads as
`Value.null` (the spec treats null and absent alike).
-/

/-- Modelled from the spec: a field value of one of the kinds
string, number, boolean, timestamp, or null/absent. -/
inductive Value where
  | str (s : String)
  | num (n : Int)
  | bool (b : Bool)
  | timestamp (t : Int)
  | null
deriving DecidableEq

/-- Modelled from the spec: a record is an ordered mapping from field
name to value. -/
abbrev Record := List (String × Value)

/-- Modelled from the spec: reading an unknown field yields null/absent. -/
def getField (r : Record) (f : String) : Value :=
  match r.find? (fun p => p.1 == f) with
  | some p => p.2
  | none => Value.null

/-- Whether a value is the null/absent value. -/
def Value.isNull : Value → Bool
  | Value.null => true
  | _ => false

/-- Whether a value is of the string kind. -/
def Value.isStr : Value → Bool
  | Value.str _ => true
  | _ => false

/-- Three-way comparison of a linear order, written out so that `Ordering.eq`
means propositional equality. -/
def cmpv {α : Type} [LinearOrder α] (x y : α) : Ordering :=
  if x < y then Ordering.lt else if x = y then Ordering.eq else Ordering.gt

/-- Modelled from the spec: the fixed kind precedence
number < string < boolean < timestamp used for mixed-kind comparison;
null is ranked last. -/
def kindRank : Value → Nat
  | Value.num _ => 0
  | Value.str _ => 1
  | Value.bool _ => 2
  | Value.timestamp _ => 3
  | Value.null => 4

/-- Modelled from the spec: natural ordering of two values — same-kind
values compare by their kind's natural order (numbers numerically, strings
lexicographically, false before true, timestamps chronologically), and
mixed-kind values compare by the fixed kind precedence. -/
def compareValues : Value → Value → Ordering
  | Value.num x, Value.num y => cmpv x y
  | Value.str x, Value.str y => cmpv x y
  | Value.bool x, Value.bool y => cmpv x y
  | Value.timestamp x, Value.timestamp y => cmpv x y
  | v, w => cmpv (kindRank v) (kindRank w)

/-- Modelled from the spec: sort direction ASC | DESC. -/
inductive SortDirection where
  | asc
  | desc
deriving DecidableEq

/-- Modelled from the spec: null placement NULLS_FIRST | NULLS_LAST. -/
inductive SortNulls where
  | nullsFirst
  | nullsLast
deriving DecidableEq

/-- Modelled from the spec: one sort criterion {field, direction,
nullsPlacement}; the placement is optional and defaults to NULLS_LAST. -/
structure SortField where
  field : String
  direction : SortDirection
  nulls : Option SortNulls
deriving DecidableEq

/-- Where a null value sorts relative to any non-null value under a given
placement: FIRST puts null before (lt), LAST puts null after (gt). -/
def nullsOrd : SortNulls → Ordering
  | SortNulls.nullsFirst => Ordering.lt
  | SortNulls.nullsLast => Ordering.gt

/-- ASC keeps the natural ordering, DESC reverses it. -/
def applyDirection : SortDirection → Ordering → Ordering
  | SortDirection.asc, o => o
  | SortDirection.desc, o => o.swap

/-- Modelled from the spec: the per-criterion comparison — if either value
is null/absent the result is dictated by the null placement alone,
independent of the direction; only two non-null values are compared
naturally with the direction applied. -/
def cmpWithNulls (d : SortDirection) (n : SortNulls) (v w : Value) : Ordering :=
  if v.isNull then (if w.isNull then Ordering.eq else nullsOrd n)
  else if w.isNull then (nullsOrd n).swap
  else applyDirection d (compareValues v w)

/-- The comparison a single sort criterion induces on records
(the optional placement defaults to NULLS_LAST). -/
def SortField.cmpRec (sf : SortField) (a b : Record) : Ordering :=
  cmpWithNulls sf.direction (sf.nulls.getD SortNulls.nullsLast)
    (getField a sf.field) (getField b sf.field)

/-- Modelled from the spec: `buildComparator` iterates the criteria in
priority order and returns the first criterion's comparison where the two
records differ, `Ordering.eq` when every criterion ties. -/
def buildComparator (s : List SortField) (a b : Record) : Ordering :=
  s.foldr (fun sf acc => (sf.cmpRec a b).then acc) Ordering.eq

/-- The non-strict order on records induced by a sort spec. -/
def recordLe (s : List SortField) (a b : Record) : Prop :=
  buildComparator s a b ≠ Ordering.gt

instance recordLe.decidableRel (s : List SortField) : DecidableRel (recordLe s) :=
  fun a b => by unfold recordLe; infer_instance

/-- Modelled from the spec: `applySort` sorts the records with a stable
sort driven by the built comparator and returns the sorted collection. -/
def applySort (rs : List Record) (s : List SortField) : List Record :=
  rs.insertionSort (recordLe s)

/-- Modelled from the spec: the recognized comparison operators. -/
inductive CompOp where
  | eq | neq | gt | gte | lt | lte
  | inOp | notInOp | like | notLike | isOp | isNot | between
deriving DecidableEq

/-- Modelled from the spec: resolving an operator name; names outside the
recognized set resolve to none. -/
def parseOp : String → Option CompOp
  | "eq" => some CompOp.eq
  | "neq" => some CompOp.neq
  | "gt" => some CompOp.gt
  | "gte" => some CompOp.gte
  | "lt" => some CompOp.lt
  | "lte" => some CompOp.lte
  | "in" => some CompOp.inOp
  | "notIn" => some CompOp.notInOp
  | "like" => some CompOp.like
  | "notLike" => some CompOp.notLike
  | "is" => some CompOp.isOp
  | "isNot" => some CompOp.isNot
  | "between" => some CompOp.between
  | _ => none

/-- Modelled from the spec: a comparison operand is a single value, a set
of values, or a [low, high] range. -/
inductive Operand where
  | val (v : Value)
  | set (vs : List Value)
  | range (lo hi : Value)
deriving DecidableEq

/-- Modelled from the spec: the logical connective of a group. -/
inductive Connective where
  | and
  | or
deriving DecidableEq

/-- Modelled from the spec: a filter is a finite tree of comparisons (the
operator kept as its name, resolved at compile time) and logical groups
with ordered children; the empty AND group is the match-everything filter. -/
inductive FilterNode where
  | comparison (field : String) (op : String) (operand : Operand)
  | group (connective : Connective) (children : List FilterNode)

/-- Three-way comparison of two values of the same ordered kind (number,
string lexicographic, timestamp); none on null, unordered or mixed kinds. -/
def ordCmp : Value → Value → Option Ordering
  | Value.num a, Value.num b => some (cmpv a b)
  | Value.str a, Value.str b => some (cmpv a b)
  | Value.timestamp a, Value.timestamp b => some (cmpv a b)
  | _, _ => none

/-- Modelled from the spec: SQL-LIKE pattern matching over characters with
the `%` wildcard, case-sensitive. -/
def likeMatch : List Char → List Char → Bool
  | [], s => s.isEmpty
  | '%' :: ps, [] => likeMatch ps []
  | '%' :: ps, c :: s =>
      likeMatch ps (c :: s) || likeMatch ('%' :: ps) s
  | _ :: _, [] => false
  | p :: ps, c :: s => p == c && likeMatch ps s
termination_by ps s => (ps.length, s.length)

/-- Modelled from the spec: the semantics of one comparison operator
applied to the record's value `v` and the operand. Mismatches evaluate
silently, never raising: ordered operators (gt, gte, lt, lte, between)
answer false on a null/absent value or a kind mismatch; like and notLike
are only valid on the string kind, else false; eq treats cross-kind values
as never equal, and the negations neq, notIn, isNot negate their positive
counterparts. -/
def evalComp : CompOp → Value → Operand → Bool
  | CompOp.eq, v, Operand.val x => v == x
  | CompOp.eq, _, _ => false
  | CompOp.neq, v, Operand.val x => !(v == x)
  | CompOp.neq, _, _ => true
  | CompOp.gt, v, Operand.val x => ordCmp v x == some Ordering.gt
  | CompOp.gt, _, _ => false
  | CompOp.gte, v, Operand.val x =>
      ordCmp v x == some Ordering.gt || ordCmp v x == some Ordering.eq
  | CompOp.gte, _, _ => false
  | CompOp.lt, v, Operand.val x => ordCmp v x == some Ordering.lt
  | CompOp.lt, _, _ => false
  | CompOp.lte, v, Operand.val x =>
      ordCmp v x == some Ordering.lt || ordCmp v x == some Ordering.eq
  | CompOp.lte, _, _ => false
  | CompOp.inOp, v, Operand.set xs => xs.contains v
  | CompOp.inOp, _, _ => false
  | CompOp.notInOp, v, Operand.set xs => !(xs.contains v)
  | CompOp.notInOp, _, _ => true
  | CompOp.like, Value.str s, Operand.val (Value.str p) =>
      likeMatch p.toList s.toList
  | CompOp.like, _, _ => false
  | CompOp.notLike, Value.str s, Operand.val (Value.str p) =>
      !likeMatch p.toList s.toList
  | CompOp.notLike, _, _ => false
  | CompOp.isOp, v, Operand.val (Value.bool b) => v == Value.bool b
  | CompOp.isOp, v, Operand.val Value.null => v.isNull
  | CompOp.isOp, _, _ => false
  | CompOp.isNot, v, Operand.val (Value.bool b) => !(v == Value.bool b)
  | CompOp.isNot, v, Operand.val Value.null => !v.isNull
  | CompOp.isNot, _, _ => true
  | CompOp.between, v, Operand.range lo hi =>
      match ordCmp lo v, ordCmp v hi with
      | some o₁, some o₂ => !(o₁ == Ordering.gt) && !(o₂ == Ordering.gt)
      | _, _ => false
  | CompOp.between, _, _ => false

/-- A compiled predicate over one record. -/
abbrev Pred := Record → Bool

/-- Modelled from the spec: the two structural error kinds. -/
inductive QueryError where
  | invalidArgument
  | unsupportedOperator
deriving DecidableEq

mutual

/-- Modelled from the spec: `compile` turns a filter tree into a boolean
predicate over one record; a comparison with an unrecognized operator name
fails with `UnsupportedOperatorError`; an AND group is the conjunction of
its children (vacuously true), an OR group the disjunction (vacuously
false). -/
def compile : FilterNode → Except QueryError Pred
  | FilterNode.comparison f op x =>
    match parseOp op with
    | some c => Except.ok (fun r => evalComp c (getField r f) x)
    | none => Except.error QueryError.unsupportedOperator
  | FilterNode.group conn children =>
    match compileAll children with
    | Except.ok ps =>
      Except.ok (fun r =>
        match conn with
        | Connective.and => ps.all (fun p => p r)
        | Connective.or => ps.any (fun p => p r))
    | Except.error e => Except.error e

/-- Compiles a list of children left to right, propagating the first
error. -/
def compileAll : List FilterNode → Except QueryError (List Pred)
  | [] => Except.ok []
  | f :: fs =>
    match compile f with
    | Except.error e => Except.error e
    | Except.ok p =>
      match compileAll fs with
      | Except.error e => Except.error e
      | Except.ok ps => Except.ok (p :: ps)

end

/-- Modelled from the spec: `applyFilter` on an array keeps, in their
original relative order, exactly the records the compiled predicate
accepts. -/
def applyFilter (rs : List Record) (f : FilterNode) : Except QueryError (List Record) :=
  match compile f with
  | Except.ok p => Except.ok (rs.filter p)
  | Except.error e => Except.error e

/-- Modelled from the spec: `applyFilter` on a single record returns the
boolean verdict of the compiled predicate on that record. -/
def applyFilterOne (r : Record) (f : FilterNode) : Except QueryError Bool :=
  match compile f with
  | Except.ok p => Except.ok (p r)
  | Except.error e => Except.error e

/-- Modelled from the spec: paging bounds — optional offset (default 0)
and optional limit (default unbounded). -/
structure Paging where
  offset : Option Int
  limit : Option Int
deriving DecidableEq

/-- Modelled from the spec: `applyPaging` fails with
`InvalidArgumentError` on a negative offset or limit; otherwise it skips
`offset` records and keeps at most `limit` of the remainder (all of them
when no limit is given). -/
def applyPaging (rs : List Record) (p : Paging) : Except QueryError (List Record) :=
  if p.offset.getD 0 < 0 || p.limit.getD 0 < 0 then
    Except.error QueryError.invalidArgument
  else
    let dropped := rs.drop (p.offset.getD 0).toNat
    match p.limit with
    | none => Except.ok dropped
    | some l => Except.ok (dropped.take l.toNat)

/-- Modelled from the spec: a query bundles an optional filter, an
optional sort spec and optional paging bounds. -/
structure Query where
  filter : Option FilterNode
  sorting : Option (List SortField)
  paging : Option Paging

/-- The match-everything filter an absent filter elaborates to: the empty
AND group. -/
def emptyFilter : FilterNode := FilterNode.group Connective.and []

/-- Paging bounds that trim nothing. -/
def emptyPaging : Paging := Paging.mk none none

/-- Modelled from the spec: `applyQuery` applies the three helpers in the
fixed order filter → sort → page, filling each absent component with its
empty object (empty filter, empty sort spec, unbounded paging). -/
def applyQuery (rs : List Record) (q : Query) : Except QueryError (List Record) :=
  match applyFilter rs (q.filter.getD emptyFilter) with
  | Except.error e => Except.error e
  | Except.ok filtered =>
    applyPaging (applySort filtered (q.sorting.getD [])) (q.paging.getD emptyPaging)

/-- Stated from the spec's words for the composition law: filtering with
an absent filter keeps every record. -/
def applyFilterOpt (rs : List Record) : Option FilterNode → Except QueryError (List Record)
  | none => Except.ok rs
  | some f => applyFilter rs f

/-- Stated from the spec's words for the composition law: sorting with an
absent sort spec reorders nothing. -/
def applySortOpt (rs : List Record) : Option (List SortField) → List Record
  | none => rs
  | some s => applySort rs s

/-- Stated from the spec's words for the composition law: paging with
absent bounds trims nothing. -/
def applyPagingOpt (rs : List Record) : Option Paging → Except QueryError (List Record)
  | none => Except.ok rs
  | some p => applyPaging rs p

/-- Stated from the spec's words: the composition
`applyPaging(applySort(applyFilter(records, filter), sorting), paging)`
with each absent component treated as its identity operation. -/
def applyQuerySpec (rs : List Record) (q : Query) : Except QueryError (List Record) :=
  match applyFilterOpt rs q.filter with
  | Except.error e => Except.error e
  | Except.ok filtered => applyPagingOpt (applySortOpt filtered q.sorting) q.paging

/-- Modelled from the spec: a field map is a finite name-translation
table; a name without an entry maps to itself. -/
abbrev FieldMap := List (String × String)

/-- Looks a field name up in a field map, identity when absent. -/
def mapField (m : FieldMap) (f : String) : String :=
  match m.find? (fun p => p.1 == f) with
  | some p => p.2
  | none => f

mutual

/-- Modelled from the spec: `transformFilter` recursively rewrites every
comparison's field name through the map, preserving operator and operand;
groups keep their connective and the order of their (recursively
transformed) children. -/
def transformFilter : FilterNode → FieldMap → FilterNode
  | FilterNode.comparison f op x, m => FilterNode.comparison (mapField m f) op x
  | FilterNode.group conn children, m =>
    FilterNode.group conn (transformList children m)

/-- Transforms each child in order. -/
def transformList : List FilterNode → FieldMap → List FilterNode
  | [], _ => []
  | f :: fs, m => transformFilter f m :: transformList fs m

end

mutual

/-- Every field name a filter tree mentions, in tree order. -/
def fieldsOf : FilterNode → List String
  | FilterNode.comparison f _ _ => [f]
  | FilterNode.group _ children => fieldsOfList children

/-- Field names mentioned by a list of filter trees. -/
def fieldsOfList : List FilterNode → List String
  | [] => []
  | f :: fs => fieldsOf f ++ fieldsOfList fs

end

mutual

/-- The field-free shape of a filter tree: every field name blanked,
operators, operands, connectives and child order kept. -/
def eraseFields : FilterNode → FilterNode
  | FilterNode.comparison _ op x => FilterNode.comparison "" op x
  | FilterNode.group conn children => FilterNode.group conn (eraseFieldsList children)

/-- Blanks the field names of each child in order. -/
def eraseFieldsList : List FilterNode → List FilterNode
  | [] => []
  | f :: fs => eraseFields f :: eraseFieldsList fs

end

mutual

/-- Whether some comparison in the tree uses an operator name outside the
recognized set. -/
def hasUnsupportedOp : FilterNode → Bool
  | FilterNode.comparison _ op _ => (parseOp op).isNone
  | FilterNode.group _ children => hasUnsupportedOpList children

/-- Whether some comparison below one of the children does. -/
def hasUnsupportedOpList : List FilterNode → Bool
  | [] => false
  | f :: fs => hasUnsupportedOp f || hasUnsupportedOpList fs

end

/-! ### Lawfulness of the comparators -/

theorem cmpv_self {α : Type} [LinearOrder α] (x : α) : cmpv x x = Ordering.eq := by
  simp [cmpv]

theorem cmpv_swap {α : Type} [LinearOrder α] (x y : α) : (cmpv x y).swap = cmpv y x := by
  rcases lt_trichotomy x y with h | h | h
  · simp [cmpv, h, lt_asymm h, Ne.symm (ne_of_lt h), Ordering.swap]
  · subst h; simp [cmpv_self, Ordering.swap]
  · simp [cmpv, h, lt_asymm h, Ne.symm (ne_of_gt h), ne_of_gt h, Ordering.swap]

theorem cmpv_ne_gt {α : Type} [LinearOrder α] {x y : α} :
    cmpv x y ≠ Ordering.gt ↔ x ≤ y := by
  rcases lt_trichotomy x y with h | h | h
  · simp [cmpv, h, le_of_lt h]
  · subst h; simp [cmpv_self]
  · simp [cmpv, lt_asymm h, ne_of_gt h, not_le_of_gt h]

theorem cmpv_eq_iff {α : Type} [LinearOrder α] {x y : α} :
    cmpv x y = Ordering.eq ↔ x = y := by
  rcases lt_trichotomy x y with h | h | h
  · simp [cmpv, h, ne_of_lt h]
  · subst h; simp [cmpv_self]
  · simp [cmpv, lt_asymm h, Ne.symm (ne_of_gt h), ne_of_gt h]

theorem eq_then (o : Ordering) : Ordering.eq.then o = o := rfl

theorem lt_then (o : Ordering) : Ordering.lt.then o = Ordering.lt := rfl

theorem gt_then (o : Ordering) : Ordering.gt.then o = Ordering.gt := rfl

theorem then_eq_right (o : Ordering) : o.then Ordering.eq = o := by
  cases o <;> rfl

theorem then_ne_gt {o₁ o₂ : Ordering} :
    o₁.then o₂ ≠ Ordering.gt ↔
      o₁ = Ordering.lt ∨ (o₁ = Ordering.eq ∧ o₂ ≠ Ordering.gt) := by
  cases o₁ <;> cases o₂ <;> decide

/-- A comparator that is swap-coherent and whose induced `≤` is
transitive: exactly what a total preorder needs. -/
structure LawfulCmp {α : Type} (c : α → α → Ordering) : Prop where
  symm : ∀ a b, (c a b).swap = c b a
  leTrans : ∀ a b d : α,
    c a b ≠ Ordering.gt → c b d ≠ Ordering.gt → c a d ≠ Ordering.gt

theorem lawfulCmp_congr {α : Type} {c c' : α → α → Ordering}
    (h : ∀ a b, c a b = c' a b) (hc : LawfulCmp c') : LawfulCmp c := by
  constructor
  · intro a b; rw [h a b, h b a]; exact hc.symm a b
  · intro a b d h1 h2
    rw [h a b] at h1; rw [h b d] at h2; rw [h a d]
    exact hc.leTrans a b d h1 h2

theorem lawfulCmp_cmpv {α : Type} [LinearOrder α] :
    LawfulCmp (fun x y : α => cmpv x y) := by
  constructor
  · intro a b; exact cmpv_swap a b
  · intro a b d h1 h2
    rw [cmpv_ne_gt] at h1 h2 ⊢
    exact le_trans h1 h2

theorem lawfulCmp_comap {α β : Type} {c : β → β → Ordering}
    (hc : LawfulCmp c) (f : α → β) : LawfulCmp (fun a b => c (f a) (f b)) := by
  constructor
  · intro a b; exact hc.symm (f a) (f b)
  · intro a b d h1 h2; exact hc.leTrans (f a) (f b) (f d) h1 h2

theorem LawfulCmp.gt_iff {α : Type} {c : α → α → Ordering} (hc : LawfulCmp c)
    (a b : α) : c a b = Ordering.gt ↔ c b a = Ordering.lt := by
  rw [← hc.symm a b]
  cases hx : c a b <;> decide

theorem LawfulCmp.eq_swap {α : Type} {c : α → α → Ordering} (hc : LawfulCmp c)
    (a b : α) : c a b = Ordering.eq ↔ c b a = Ordering.eq := by
  rw [← hc.symm a b]
  cases hx : c a b <;> decide

theorem LawfulCmp.lt_of_le_of_lt {α : Type} {c : α → α → Ordering}
    (hc : LawfulCmp c) {a b d : α}
    (h1 : c a b ≠ Ordering.gt) (h2 : c b d = Ordering.lt) : c a d = Ordering.lt := by
  by_contra hne
  have hle : c a d ≠ Ordering.gt := hc.leTrans a b d h1 (by simp [h2])
  have heq : c a d = Ordering.eq := by
    cases hx : c a d
    · exact absurd hx hne
    · rfl
    · exact absurd hx hle
  have hda : c d a = Ordering.eq := (hc.eq_swap a d).mp heq
  have hdb : c d b ≠ Ordering.gt := hc.leTrans d a b (by simp [hda]) h1
  have hgt : c d b = Ordering.gt := (hc.gt_iff d b).mpr h2
  exact hdb hgt

theorem LawfulCmp.lt_of_lt_of_le {α : Type} {c : α → α → Ordering}
    (hc : LawfulCmp c) {a b d : α}
    (h1 : c a b = Ordering.lt) (h2 : c b d ≠ Ordering.gt) : c a d = Ordering.lt := by
  by_contra hne
  have hle : c a d ≠ Ordering.gt := hc.leTrans a b d (by simp [h1]) h2
  have heq : c a d = Ordering.eq := by
    cases hx : c a d
    · exact absurd hx hne
    · rfl
    · exact absurd hx hle
  have hda : c d a = Ordering.eq := (hc.eq_swap a d).mp heq
  have hba : c b a ≠ Ordering.gt := hc.leTrans b d a h2 (by simp [hda])
  have hgt : c b a = Ordering.gt := (hc.gt_iff b a).mpr h1
  exact hba hgt

theorem LawfulCmp.eq_trans {α : Type} {c : α → α → Ordering}
    (hc : LawfulCmp c) {a b d : α}
    (h1 : c a b = Ordering.eq) (h2 : c b d = Ordering.eq) : c a d = Ordering.eq := by
  have hle : c a d ≠ Ordering.gt := hc.leTrans a b d (by simp [h1]) (by simp [h2])
  have hdb : c d b = Ordering.eq := (hc.eq_swap b d).mp h2
  have hba : c b a = Ordering.eq := (hc.eq_swap a b).mp h1
  have hda : c d a ≠ Ordering.gt := hc.leTrans d b a (by simp [hdb]) (by simp [hba])
  have hnlt : c a d ≠ Ordering.lt := by
    intro hlt
    exact hda ((hc.gt_iff d a).mpr hlt)
  cases hx : c a d
  · exact absurd hx hnlt
  · rfl
  · exact absurd hx hle

theorem lawfulCmp_then {α : Type} {c₁ c₂ : α → α → Ordering}
    (h₁ : LawfulCmp c₁) (h₂ : LawfulCmp c₂) :
    LawfulCmp (fun a b => (c₁ a b).then (c₂ a b)) := by
  constructor
  · intro a b
    rw [Ordering.swap_then, h₁.symm, h₂.symm]
  · intro a b d hab hbd
    rw [then_ne_gt] at hab hbd ⊢
    rcases hab with hab | ⟨hab, hab'⟩
    · rcases hbd with hbd | ⟨hbd, _⟩
      · exact Or.inl (h₁.lt_of_lt_of_le hab (by simp [hbd]))
      · exact Or.inl (h₁.lt_of_lt_of_le hab (by simp [hbd]))
    · rcases hbd with hbd | ⟨hbd, hbd'⟩
      · exact Or.inl (h₁.lt_of_le_of_lt (by simp [hab]) hbd)
      · exact Or.inr ⟨h₁.eq_trans hab hbd, h₂.leTrans a b d hab' hbd'⟩

theorem LawfulCmp.swapped {α : Type} {c : α → α → Ordering} (hc : LawfulCmp c) :
    LawfulCmp (fun a b => (c a b).swap) := by
  constructor
  · intro a b
    rw [Ordering.swap_swap, ← hc.symm b a]
  · intro a b d h1 h2
    have ha : c b a ≠ Ordering.gt := fun hx => h1 (by rw [hc.symm a b]; exact hx)
    have hb : c d b ≠ Ordering.gt := fun hx => h2 (by rw [hc.symm b d]; exact hx)
    have hda : c d a ≠ Ordering.gt := hc.leTrans d b a hb ha
    intro hx
    have hx' : c a d = Ordering.lt := by
      have hs := congrArg Ordering.swap hx
      rw [Ordering.swap_swap] at hs
      exact hs
    exact hda ((hc.gt_iff d a).mpr hx')

/-- The numeric component of the comparison key of a value. -/
def numKey : Value → Int
  | Value.num x => x
  | Value.timestamp t => t
  | Value.bool b => cond b 1 0
  | _ => 0

/-- The string component of the comparison key of a value. -/
def strKey : Value → String
  | Value.str s => s
  | _ => ""

theorem cmpv_bool_int (x y : Bool) :
    cmpv x y = cmpv (cond x 1 0 : Int) (cond y 1 0) := by
  cases x <;> cases y <;> decide

/-- `compareValues` is the lexicographic comparison of the
(kind rank, numeric key, string key) triple. -/
theorem compareValues_keyed (v w : Value) :
    compareValues v w =
      (cmpv (kindRank v) (kindRank w)).then
        ((cmpv (numKey v) (numKey w)).then (cmpv (strKey v) (strKey w))) := by
  cases v <;> cases w <;>
    simp only [compareValues, kindRank, numKey, strKey] <;>
    first
      | (rw [cmpv_bool_int]; simp [cmpv_self, eq_then, then_eq_right])
      | (simp [cmpv_self, eq_then, then_eq_right]; done)
      | (simp [cmpv, cmpv_self, lt_then, gt_then, eq_then, then_eq_right]; done)

theorem lawful_compareValues : LawfulCmp compareValues := by
  apply lawfulCmp_congr compareValues_keyed
  exact
    lawfulCmp_then (lawfulCmp_comap lawfulCmp_cmpv kindRank)
      (lawfulCmp_then (lawfulCmp_comap lawfulCmp_cmpv numKey)
        (lawfulCmp_comap lawfulCmp_cmpv strKey))

theorem lawful_dirCompare (d : SortDirection) :
    LawfulCmp (fun v w => applyDirection d (compareValues v w)) := by
  cases d
  · exact lawfulCmp_congr (fun a b => rfl) lawful_compareValues
  · exact lawfulCmp_congr (fun a b => rfl) lawful_compareValues.swapped

theorem lawful_cmpWithNulls (d : SortDirection) (n : SortNulls) :
    LawfulCmp (cmpWithNulls d n) := by
  have hbase := lawful_dirCompare d
  constructor
  · intro a b
    by_cases ha : a.isNull <;> by_cases hb : b.isNull <;>
      simp only [cmpWithNulls, ha, hb, if_true, if_false, ite_true, ite_false]
    · rfl
    · cases n <;> rfl
    · cases n <;> rfl
    · exact hbase.symm a b
  · intro a b e h1 h2
    cases n <;>
      by_cases ha : a.isNull <;> by_cases hb : b.isNull <;> by_cases he : e.isNull <;>
        simp only [cmpWithNulls, ha, hb, he, if_true, if_false, ite_true, ite_false,
          nullsOrd] at h1 h2 ⊢ <;>
      first
        | decide
        | exact absurd h1 (by decide)
        | exact absurd h2 (by decide)
        | exact hbase.leTrans a b e h1 h2

theorem lawful_cmpRec (sf : SortField) : LawfulCmp sf.cmpRec := by
  apply lawfulCmp_congr (fun a b => rfl)
    (lawfulCmp_comap (lawful_cmpWithNulls sf.direction (sf.nulls.getD SortNulls.nullsLast))
      (fun r => getField r sf.field))

theorem buildComparator_nil (a b : Record) : buildComparator [] a b = Ordering.eq := rfl

theorem buildComparator_cons (sf : SortField) (s : List SortField) (a b : Record) :
    buildComparator (sf :: s) a b = (sf.cmpRec a b).then (buildComparator s a b) := rfl

theorem lawful_buildComparator (s : List SortField) : LawfulCmp (buildComparator s) := by
  induction s with
  | nil =>
    constructor
    · intro a b; rfl
    · intro a b d h1 h2; exact h1
  | cons sf rest ih =>
    exact lawfulCmp_congr (fun a b => buildComparator_cons sf rest a b)
      (lawfulCmp_then (lawful_cmpRec sf) ih)

instance recordLe.isTrans (s : List SortField) : IsTrans Record (recordLe s) :=
  ⟨fun a b d h1 h2 => (lawful_buildComparator s).leTrans a b d h1 h2⟩

instance recordLe.isTotal (s : List SortField) : IsTotal Record (recordLe s) := by
  constructor
  intro a b
  by_cases h : buildComparator s a b = Ordering.gt
  · right
    have hs := (lawful_buildComparator s).symm a b
    rw [h] at hs
    intro hx
    rw [← hs] at hx
    exact Ordering.noConfusion hx
  · left
    exact h

/-! ### Sorting facts -/

theorem recordLe_of_eq {s : List SortField} {a b : Record}
    (h : buildComparator s a b = Ordering.eq) : recordLe s a b := by
  intro hx
  rw [h] at hx
  exact Ordering.noConfusion hx

theorem applySort_empty_spec (rs : List Record) : applySort rs [] = rs := by
  unfold applySort
  induction rs with
  | nil => rfl
  | cons a t ih =>
    simp only [List.insertionSort]
    rw [ih]
    cases t with
    | nil => rfl
    | cons b t' =>
      have h : recordLe [] a b := recordLe_of_eq rfl
      simp only [List.orderedInsert, if_pos h]

/-- C5: `applySort` leaves the input collection untouched (it is a pure
function whose output is a fresh list, a permutation of the input), and
with the empty sort spec the output keeps the input order unchanged. -/
theorem applySort_no_mutation (rs : List Record) (s : List SortField) :
    applySort rs [] = rs ∧ (applySort rs s).Perm rs := by
  constructor
  · exact applySort_empty_spec rs
  · exact List.perm_insertionSort (recordLe s) rs

/-- C4: under any direction with NULLS_LAST placement, every record whose
sort-field value is null/absent comes after every record with a non-null
value: once a null appears, only nulls follow. -/
theorem applySort_nullsLast_after (rs : List Record) (fld : String) (d : SortDirection) :
    (applySort rs [SortField.mk fld d (some SortNulls.nullsLast)]).Pairwise
      (fun a b => (getField a fld).isNull = true → (getField b fld).isNull = true) := by
  have hs := List.sorted_insertionSort
    (recordLe [SortField.mk fld d (some SortNulls.nullsLast)]) rs
  refine hs.imp ?_
  intro a b hle ha
  by_contra hb
  apply hle
  show buildComparator _ a b = Ordering.gt
  rw [buildComparator_cons, buildComparator_nil, then_eq_right]
  unfold SortField.cmpRec cmpWithNulls
  simp only [Option.getD, ha, hb, if_true, if_false, ite_true, ite_false]
  rfl

/-- C3: the sort is stable — a pair of records tied under the comparator
that appears in order in the input still appears in that order in the
output, and the output restricted to any tie class is exactly the input
restricted to that tie class. -/
theorem applySort_stable (rs : List Record) (s : List SortField) (r₀ a b : Record) :
    (buildComparator s a b = Ordering.eq → [a, b].Sublist rs →
      [a, b].Sublist (applySort rs s))
    ∧ (applySort rs s).filter (fun r => decide (buildComparator s r r₀ = Ordering.eq))
        = rs.filter (fun r => decide (buildComparator s r r₀ = Ordering.eq)) := by
  have hL := lawful_buildComparator s
  constructor
  · intro heq hsub
    exact List.sublist_insertionSort
      (List.pairwise_pair.mpr (recordLe_of_eq heq)) hsub
  · have hall : ∀ x ∈ rs.filter (fun r => decide (buildComparator s r r₀ = Ordering.eq)),
        buildComparator s x r₀ = Ordering.eq := by
      intro x hx
      have hx' := List.of_mem_filter hx
      have hx'' : decide (buildComparator s x r₀ = Ordering.eq) = true := hx'
      exact of_decide_eq_true hx''
    have hpw : (rs.filter (fun r => decide (buildComparator s r r₀ = Ordering.eq))).Pairwise
        (recordLe s) := by
      apply List.pairwise_of_forall_mem_list
      intro x hx y hy
      have h1 : buildComparator s r₀ y = Ordering.eq := (hL.eq_swap y r₀).mp (hall y hy)
      exact recordLe_of_eq (hL.eq_trans (hall x hx) h1)
    have hsub : (rs.filter (fun r => decide (buildComparator s r r₀ = Ordering.eq))).Sublist
        (applySort rs s) :=
      List.sublist_insertionSort hpw (List.filter_sublist rs)
    have hff : (rs.filter (fun r => decide (buildComparator s r r₀ = Ordering.eq))).filter
        (fun r => decide (buildComparator s r r₀ = Ordering.eq))
        = rs.filter (fun r => decide (buildComparator s r r₀ = Ordering.eq)) :=
      List.filter_eq_self.mpr (fun x hx => by
        have hx' := List.of_mem_filter hx
        exact hx')
    have hsub2 : (rs.filter (fun r => decide (buildComparator s r r₀ = Ordering.eq))).Sublist
        ((applySort rs s).filter (fun r => decide (buildComparator s r r₀ = Ordering.eq))) := by
      rw [← hff]
      exact List.Sublist.filter _ hsub
    have hperm : ((applySort rs s).filter
        (fun r => decide (buildComparator s r r₀ = Ordering.eq))).Perm
        (rs.filter (fun r => decide (buildComparator s r r₀ = Ordering.eq))) :=
      List.Perm.filter _ (List.perm_insertionSort (recordLe s) rs)
    exact (List.Sublist.eq_of_length hsub2 hperm.length_eq.symm).symm

/-- C3 witness: two records tied on the sort field (both lack it) keep
their input order through `applySort`. -/
theorem applySort_stable_witness :
    [[("first", Value.str "B")], [("first", Value.str "A")]].Sublist
      (applySort [[("first", Value.str "B")], [("first", Value.str "A")]]
        [SortField.mk "age" SortDirection.asc (some SortNulls.nullsLast)]) :=
  (applySort_stable
      [[("first", Value.str "B")], [("first", Value.str "A")]]
      [SortField.mk "age" SortDirection.asc (some SortNulls.nullsLast)]
      [] [("first", Value.str "B")] [("first", Value.str "A")]).1
    (by decide) (List.Sublist.refl _)

/-- C6: the built comparator is total and never fails — it always returns
one of lt/eq/gt (the model of {-1, 0, 1}), it is swap-coherent, its
induced `≤` is transitive, and two non-null values of different kinds are
ordered by the fixed kind precedence number < string < boolean <
timestamp. -/
theorem buildComparator_total_order (s : List SortField) (a b d : Record) :
    (buildComparator s a b = Ordering.lt ∨ buildComparator s a b = Ordering.eq ∨
      buildComparator s a b = Ordering.gt)
    ∧ (buildComparator s a b).swap = buildComparator s b a
    ∧ (buildComparator s a b ≠ Ordering.gt → buildComparator s b d ≠ Ordering.gt →
        buildComparator s a d ≠ Ordering.gt)
    ∧ (∀ v w : Value, v.isNull = false → w.isNull = false →
        kindRank v < kindRank w → compareValues v w = Ordering.lt) := by
  refine ⟨?_, (lawful_buildComparator s).symm a b,
    (lawful_buildComparator s).leTrans a b d, ?_⟩
  · cases buildComparator s a b
    · exact Or.inl rfl
    · exact Or.inr (Or.inl rfl)
    · exact Or.inr (Or.inr rfl)
  · intro v w hv hw hrank
    cases v <;> cases w <;>
      simp only [Value.isNull] at hv hw <;>
      simp [kindRank] at hrank ⊢ <;>
      simp [compareValues, cmpv, kindRank]

/-- C6 witness: transitivity and the kind precedence at concrete inputs. -/
theorem buildComparator_total_order_witness :
    buildComparator [] [] [] ≠ Ordering.gt
    ∧ compareValues (Value.num 1) (Value.str "a") = Ordering.lt :=
  ⟨(buildComparator_total_order [] [] [] []).2.2.1 (by decide) (by decide),
    (buildComparator_total_order [] [] [] []).2.2.2 (Value.num 1) (Value.str "a")
      (by decide) (by decide) (by decide)⟩

/-! ### Query composition and filter selectivity -/

theorem applyFilter_empty_spec (rs : List Record) :
    applyFilter rs emptyFilter = Except.ok rs := by
  have h : applyFilter rs emptyFilter = Except.ok (rs.filter (fun _ => true)) := rfl
  rw [h, List.filter_true]

theorem applyPaging_empty_spec (rs : List Record) :
    applyPaging rs emptyPaging = Except.ok rs := by
  have h : applyPaging rs emptyPaging = Except.ok (rs.drop 0) := rfl
  rw [h, List.drop_zero]

/-- C1: `applyQuery` is exactly the composition
`applyPaging(applySort(applyFilter(records, filter), sorting), paging)`
with each absent component acting as the identity. -/
theorem applyQuery_is_composition (rs : List Record) (q : Query) :
    applyQuery rs q = applyQuerySpec rs q := by
  have hsort : ∀ l : List Record,
      applySort l (q.sorting.getD []) = applySortOpt l q.sorting := by
    intro l
    cases q.sorting with
    | none => exact applySort_empty_spec l
    | some s => rfl
  have hpage : ∀ l : List Record,
      applyPaging l (q.paging.getD emptyPaging) = applyPagingOpt l q.paging := by
    intro l
    cases q.paging with
    | none => exact applyPaging_empty_spec l
    | some p => rfl
  have hfilt : applyFilter rs (q.filter.getD emptyFilter) = applyFilterOpt rs q.filter := by
    cases q.filter with
    | none => exact applyFilter_empty_spec rs
    | some f => rfl
  unfold applyQuery applyQuerySpec
  rw [hfilt]
  cases applyFilterOpt rs q.filter with
  | error e => rfl
  | ok l =>
    dsimp only
    rw [hsort l, hpage (applySortOpt l q.sorting)]

/-- C2: filtering keeps, in their original relative order (a sublist of
the input), exactly the records on which the compiled predicate is true. -/
theorem applyFilter_selectivity (rs : List Record) (f : FilterNode) (p : Pred)
    (h : compile f = Except.ok p) :
    applyFilter rs f = Except.ok (rs.filter p)
    ∧ (∀ r ∈ rs, (r ∈ rs.filter p ↔ p r = true))
    ∧ (rs.filter p).Sublist rs := by
  refine ⟨?_, ?_, List.filter_sublist rs⟩
  · unfold applyFilter
    rw [h]
  · intro r hr
    constructor
    · intro hm
      exact (List.mem_filter.mp hm).2
    · intro hp
      exact List.mem_filter.mpr ⟨hr, hp⟩

/-- C2 witness: the documentation's Scenario A — the in-filter keeps Bob
and Sally, in input order. -/
theorem applyFilter_selectivity_witness :
    applyFilter
        [[("first", Value.str "Bob")], [("first", Value.str "Alice")],
          [("first", Value.str "Sally")], [("first", Value.str "Zane")]]
        (FilterNode.comparison "first" "in"
          (Operand.set [Value.str "Bob", Value.str "Sally"]))
      = Except.ok [[("first", Value.str "Bob")], [("first", Value.str "Sally")]] :=
  ((applyFilter_selectivity
      [[("first", Value.str "Bob")], [("first", Value.str "Alice")],
        [("first", Value.str "Sally")], [("first", Value.str "Zane")]]
      (FilterNode.comparison "first" "in"
        (Operand.set [Value.str "Bob", Value.str "Sally"]))
      (fun r => evalComp CompOp.inOp (getField r "first")
        (Operand.set [Value.str "Bob", Value.str "Sally"]))
      rfl).1).trans (by rfl)

/-- C10: on a single record `applyFilter` answers a boolean — the verdict
of the compiled predicate — true exactly when the record matches. -/
theorem applyFilterOne_bool (r : Record) (f : FilterNode) (p : Pred)
    (h : compile f = Except.ok p) :
    applyFilterOne r f = Except.ok (p r)
    ∧ (applyFilterOne r f = Except.ok true ↔ p r = true) := by
  unfold applyFilterOne
  rw [h]
  dsimp only
  constructor
  · rfl
  · constructor
    · intro hm
      exact Except.ok.inj hm
    · intro hp
      rw [hp]

/-- C10 witness: the documentation's single-record examples — Bob matches
the in-filter (true) and does not match the eq-against-a-list filter
(false). -/
theorem applyFilterOne_bool_witness :
    applyFilterOne [("first", Value.str "Bob"), ("last", Value.str "Yukon")]
        (FilterNode.comparison "first" "in"
          (Operand.set [Value.str "Bob", Value.str "Sally"]))
      = Except.ok true
    ∧ applyFilterOne [("first", Value.str "Bob"), ("last", Value.str "Yukon")]
        (FilterNode.comparison "first" "eq"
          (Operand.set [Value.str "Alice", Value.str "Zane"]))
      = Except.ok false :=
  ⟨((applyFilterOne_bool [("first", Value.str "Bob"), ("last", Value.str "Yukon")]
      (FilterNode.comparison "first" "in"
        (Operand.set [Value.str "Bob", Value.str "Sally"]))
      (fun r => evalComp CompOp.inOp (getField r "first")
        (Operand.set [Value.str "Bob", Value.str "Sally"]))
      rfl).1).trans (by rfl),
    ((applyFilterOne_bool [("first", Value.str "Bob"), ("last", Value.str "Yukon")]
      (FilterNode.comparison "first" "eq"
        (Operand.set [Value.str "Alice", Value.str "Zane"]))
      (fun r => evalComp CompOp.eq (getField r "first")
        (Operand.set [Value.str "Alice", Value.str "Zane"]))
      rfl).1).trans (by rfl)⟩

/-! ### Silent non-match behaviour of comparisons -/

/-- C7 counterexample: the blanket silent-false clauses fail outside the
positive operators — on a record missing the field, `is null` matches
(true), and neq, notIn, isNot, eq with a null operand and in with a set
containing null all answer true; a kind-mismatched neq on a present field
also answers true. -/
theorem comparison_missing_field_not_always_false :
    applyFilterOne [] (FilterNode.comparison "age" "is" (Operand.val Value.null))
      = Except.ok true
    ∧ applyFilterOne [] (FilterNode.comparison "age" "neq" (Operand.val (Value.str "x")))
      = Except.ok true
    ∧ applyFilterOne [] (FilterNode.comparison "age" "notIn" (Operand.set [Value.num 1]))
      = Except.ok true
    ∧ applyFilterOne [] (FilterNode.comparison "age" "isNot" (Operand.val (Value.bool true)))
      = Except.ok true
    ∧ applyFilterOne [] (FilterNode.comparison "age" "eq" (Operand.val Value.null))
      = Except.ok true
    ∧ applyFilterOne [] (FilterNode.comparison "age" "in" (Operand.set [Value.null]))
      = Except.ok true
    ∧ applyFilterOne [("first", Value.str "Bob")]
        (FilterNode.comparison "first" "neq" (Operand.val (Value.num 3)))
      = Except.ok true :=
  ⟨rfl, rfl, rfl, rfl, rfl, rfl, rfl⟩

theorem applyFilterOne_comparison (r : Record) (fld opName : String) (x : Operand)
    (c : CompOp) (hop : parseOp opName = some c) :
    applyFilterOne r (FilterNode.comparison fld opName x)
      = Except.ok (evalComp c (getField r fld) x) := by
  unfold applyFilterOne compile
  rw [hop]

/-- C7 (amended): under an ordered operator (gt, gte, lt, lte) a
comparison whose value is null/absent or whose operand kind mismatches the
value's kind evaluates to false; a between comparison whose value is
null/absent or kind-mismatched against the range evaluates to false; an eq
comparison against a list operand (the claim's example) or against a value
of a different kind evaluates to false; a like or notLike comparison on a
value that is not a string evaluates to false; and a comparison with any
recognized operator never raises an error. The blanket missing-field
clause is dropped: as the counterexample shows, `is null` matches a
missing field, and neq, notIn, isNot and eq/in with a null (or
null-containing) operand answer true there. -/
theorem comparison_silent_nonmatch (r : Record) (fld : String) (v lo hi : Value)
    (xs : List Value) :
    (ordCmp (getField r fld) v = none →
      applyFilterOne r (FilterNode.comparison fld "gt" (Operand.val v)) = Except.ok false
      ∧ applyFilterOne r (FilterNode.comparison fld "gte" (Operand.val v)) = Except.ok false
      ∧ applyFilterOne r (FilterNode.comparison fld "lt" (Operand.val v)) = Except.ok false
      ∧ applyFilterOne r (FilterNode.comparison fld "lte" (Operand.val v)) = Except.ok false)
    ∧ (ordCmp lo (getField r fld) = none →
        applyFilterOne r (FilterNode.comparison fld "between" (Operand.range lo hi))
          = Except.ok false)
    ∧ applyFilterOne r (FilterNode.comparison fld "eq" (Operand.set xs)) = Except.ok false
    ∧ (kindRank (getField r fld) ≠ kindRank v →
        applyFilterOne r (FilterNode.comparison fld "eq" (Operand.val v)) = Except.ok false)
    ∧ ((getField r fld).isStr = false →
        applyFilterOne r (FilterNode.comparison fld "like" (Operand.val v)) = Except.ok false
        ∧ applyFilterOne r (FilterNode.comparison fld "notLike" (Operand.val v))
            = Except.ok false)
    ∧ (∀ (opName : String) (c : CompOp) (x : Operand), parseOp opName = some c →
        applyFilterOne r (FilterNode.comparison fld opName x)
          = Except.ok (evalComp c (getField r fld) x)) := by
  refine ⟨?_, ?_, ?_, ?_, ?_, ?_⟩
  · intro h
    refine ⟨?_, ?_, ?_, ?_⟩
    · rw [applyFilterOne_comparison r fld "gt" (Operand.val v) CompOp.gt rfl]
      simp [evalComp, h]
    · rw [applyFilterOne_comparison r fld "gte" (Operand.val v) CompOp.gte rfl]
      simp [evalComp, h]
    · rw [applyFilterOne_comparison r fld "lt" (Operand.val v) CompOp.lt rfl]
      simp [evalComp, h]
    · rw [applyFilterOne_comparison r fld "lte" (Operand.val v) CompOp.lte rfl]
      simp [evalComp, h]
  · intro h
    rw [applyFilterOne_comparison r fld "between" (Operand.range lo hi) CompOp.between rfl]
    simp [evalComp, h]
  · rw [applyFilterOne_comparison r fld "eq" (Operand.set xs) CompOp.eq rfl]
    simp [evalComp]
  · intro h
    rw [applyFilterOne_comparison r fld "eq" (Operand.val v) CompOp.eq rfl]
    have hne : (getField r fld == v) = false := by
      cases hx : getField r fld == v
      · rfl
      · exact absurd (congrArg kindRank (eq_of_beq hx)) h
    simp [evalComp, hne]
  · intro h
    constructor
    · rw [applyFilterOne_comparison r fld "like" (Operand.val v) CompOp.like rfl]
      cases hgf : getField r fld <;> rw [hgf] at h
      · simp [Value.isStr] at h
      all_goals (cases v <;> rfl)
    · rw [applyFilterOne_comparison r fld "notLike" (Operand.val v) CompOp.notLike rfl]
      cases hgf : getField r fld <;> rw [hgf] at h
      · simp [Value.isStr] at h
      all_goals (cases v <;> rfl)
  · intro opName c x hop
    exact applyFilterOne_comparison r fld opName x c hop

/-- C7 witness: concrete silent non-matches — a string field compared with
gt against a number, a between on a missing field, an eq against a list,
an eq across kinds, and a like and a notLike on a missing field, all
false; and the is operator on a recognized name yields a boolean, not an
error. -/
theorem comparison_silent_nonmatch_witness :
    applyFilterOne [("first", Value.str "Bob")]
        (FilterNode.comparison "first" "gt" (Operand.val (Value.num 3)))
      = Except.ok false
    ∧ applyFilterOne [("first", Value.str "Bob")]
        (FilterNode.comparison "age" "between"
          (Operand.range (Value.num 1) (Value.num 9)))
      = Except.ok false
    ∧ applyFilterOne [("first", Value.str "Bob")]
        (FilterNode.comparison "first" "eq" (Operand.val (Value.num 3)))
      = Except.ok false
    ∧ applyFilterOne [("first", Value.str "Bob")]
        (FilterNode.comparison "age" "like" (Operand.val (Value.str "B%")))
      = Except.ok false
    ∧ applyFilterOne [("first", Value.str "Bob")]
        (FilterNode.comparison "age" "notLike" (Operand.val (Value.str "B%")))
      = Except.ok false
    ∧ applyFilterOne [("first", Value.str "Bob")]
        (FilterNode.comparison "first" "is" (Operand.val (Value.bool true)))
      = Except.ok false :=
  ⟨((comparison_silent_nonmatch [("first", Value.str "Bob")] "first" (Value.num 3)
      Value.null Value.null []).1 (by decide)).1,
    (comparison_silent_nonmatch [("first", Value.str "Bob")] "age" Value.null
      (Value.num 1) (Value.num 9) []).2.1 (by decide),
    (comparison_silent_nonmatch [("first", Value.str "Bob")] "first" (Value.num 3)
      Value.null Value.null []).2.2.2.1 (by decide),
    ((comparison_silent_nonmatch [("first", Value.str "Bob")] "age" (Value.str "B%")
      Value.null Value.null []).2.2.2.2.1 (by decide)).1,
    ((comparison_silent_nonmatch [("first", Value.str "Bob")] "age" (Value.str "B%")
      Value.null Value.null []).2.2.2.2.1 (by decide)).2,
    ((comparison_silent_nonmatch [("first", Value.str "Bob")] "first" Value.null
      Value.null Value.null []).2.2.2.2.2 "is" CompOp.isOp
      (Operand.val (Value.bool true)) rfl).trans (by rfl)⟩

/-! ### Structural errors -/

mutual

theorem compile_error_char : ∀ (f : FilterNode),
    (compile f = Except.error QueryError.unsupportedOperator ↔ hasUnsupportedOp f = true)
    ∧ (∀ e, compile f = Except.error e → e = QueryError.unsupportedOperator)
  | FilterNode.comparison fld op x => by
    cases hop : parseOp op with
    | none =>
      constructor
      · simp [compile, hasUnsupportedOp, hop]
      · intro e he
        simp [compile, hop] at he
        exact he.symm
    | some c =>
      constructor
      · simp [compile, hasUnsupportedOp, hop]
      · intro e he
        simp [compile, hop] at he
  | FilterNode.group conn children => by
    have hch := compileAll_error_char children
    cases hres : compileAll children with
    | error e =>
      have he := hch.2 e hres
      subst he
      constructor
      · simp [compile, hasUnsupportedOp, hres, (hch.1).mp hres]
      · intro e' he'
        simp [compile, hres] at he'
        exact he'.symm
    | ok ps =>
      constructor
      · simp only [compile, hres, hasUnsupportedOp]
        constructor
        · intro habs
          exact absurd habs (by simp)
        · intro habs
          rw [(hch.1).mpr habs] at hres
          exact Except.noConfusion hres
      · intro e' he'
        simp [compile, hres] at he'

theorem compileAll_error_char : ∀ (l : List FilterNode),
    (compileAll l = Except.error QueryError.unsupportedOperator ↔
      hasUnsupportedOpList l = true)
    ∧ (∀ e, compileAll l = Except.error e → e = QueryError.unsupportedOperator)
  | [] => by
    constructor
    · simp [compileAll, hasUnsupportedOpList]
    · intro e he
      simp [compileAll] at he
  | f :: fs => by
    have hf := compile_error_char f
    have hfs := compileAll_error_char fs
    cases hcf : compile f with
    | error e =>
      have he := hf.2 e hcf
      subst he
      constructor
      · simp [compileAll, hasUnsupportedOpList, hcf, (hf.1).mp hcf]
      · intro e' he'
        simp [compileAll, hcf] at he'
        exact he'.symm
    | ok p =>
      have hnf : hasUnsupportedOp f = false := by
        cases hx : hasUnsupportedOp f
        · rfl
        · rw [(hf.1).mpr hx] at hcf
          exact Except.noConfusion hcf
      cases hcfs : compileAll fs with
      | error e =>
        have he := hfs.2 e hcfs
        subst he
        constructor
        · simp [compileAll, hasUnsupportedOpList, hcf, hcfs, hnf, (hfs.1).mp hcfs]
        · intro e' he'
          simp [compileAll, hcf, hcfs] at he'
          exact he'.symm
      | ok ps =>
        have hnfs : hasUnsupportedOpList fs = false := by
          cases hx : hasUnsupportedOpList fs
          · rfl
          · rw [(hfs.1).mpr hx] at hcfs
            exact Except.noConfusion hcfs
        constructor
        · simp [compileAll, hasUnsupportedOpList, hcf, hcfs, hnf, hnfs]
        · intro e' he'
          simp [compileAll, hcf, hcfs] at he'

end

/-- C8: `applyPaging` fails, always with `InvalidArgumentError`, exactly
when the offset or the limit is negative; `compile` fails, always with
`UnsupportedOperatorError`, exactly when some comparison uses an operator
name outside the recognized set; and `applyFilter` surfaces exactly the
compilation error (the whole operation errors, no partial result). -/
theorem structural_errors (rs : List Record) (p : Paging) (f : FilterNode) :
    (applyPaging rs p = Except.error QueryError.invalidArgument ↔
      (p.offset.getD 0 < 0 ∨ p.limit.getD 0 < 0))
    ∧ (∀ e, applyPaging rs p = Except.error e → e = QueryError.invalidArgument)
    ∧ (compile f = Except.error QueryError.unsupportedOperator ↔ hasUnsupportedOp f = true)
    ∧ (∀ e, compile f = Except.error e → e = QueryError.unsupportedOperator)
    ∧ (∀ e, applyFilter rs f = Except.error e ↔ compile f = Except.error e) := by
  have hpag : (applyPaging rs p = Except.error QueryError.invalidArgument ↔
      (p.offset.getD 0 < 0 ∨ p.limit.getD 0 < 0))
      ∧ ∀ e, applyPaging rs p = Except.error e → e = QueryError.invalidArgument := by
    unfold applyPaging
    by_cases h1 : p.offset.getD 0 < 0 <;> by_cases h2 : p.limit.getD 0 < 0 <;>
      simp [h1, h2] <;> cases p.limit <;> simp
  refine ⟨hpag.1, hpag.2, (compile_error_char f).1, (compile_error_char f).2, ?_⟩
  intro e
  unfold applyFilter
  cases hc : compile f <;> simp

/-- C8 witness: a negative offset is rejected with the invalid-argument
error, and an unrecognized operator name is rejected with the
unsupported-operator error. -/
theorem structural_errors_witness :
    applyPaging [] (Paging.mk (some (-1)) none) = Except.error QueryError.invalidArgument
    ∧ compile (FilterNode.comparison "x" "foo" (Operand.val Value.null))
        = Except.error QueryError.unsupportedOperator :=
  ⟨(structural_errors [] (Paging.mk (some (-1)) none)
      (FilterNode.comparison "x" "foo" (Operand.val Value.null))).1.mpr
        (Or.inl (by decide)),
    (structural_errors [] (Paging.mk (some (-1)) none)
      (FilterNode.comparison "x" "foo" (Operand.val Value.null))).2.2.1.mpr
        (by rfl)⟩

/-! ### Field remapping -/

mutual

theorem transformFilter_roundtrip : ∀ (φ : FilterNode) (m minv : FieldMap),
    (∀ fl ∈ fieldsOf φ, mapField minv (mapField m fl) = fl) →
    transformFilter (transformFilter φ m) minv = φ
  | FilterNode.comparison fld op x, m, minv => by
    intro h
    simp only [transformFilter]
    rw [h fld (by simp [fieldsOf])]
  | FilterNode.group conn children, m, minv => by
    intro h
    simp only [transformFilter]
    rw [transformList_roundtrip children m minv
      (fun fl hfl => h fl (by simp only [fieldsOf]; exact hfl))]

theorem transformList_roundtrip : ∀ (l : List FilterNode) (m minv : FieldMap),
    (∀ fl ∈ fieldsOfList l, mapField minv (mapField m fl) = fl) →
    transformList (transformList l m) minv = l
  | [], _, _ => by
    intro _
    rfl
  | f :: fs, m, minv => by
    intro h
    simp only [transformList]
    rw [transformFilter_roundtrip f m minv
        (fun fl hfl => h fl (by simp only [fieldsOfList, List.mem_append]; exact Or.inl hfl)),
      transformList_roundtrip fs m minv
        (fun fl hfl => h fl (by simp only [fieldsOfList, List.mem_append]; exact Or.inr hfl))]

end

mutual

theorem eraseFields_transform : ∀ (φ : FilterNode) (m : FieldMap),
    eraseFields (transformFilter φ m) = eraseFields φ
  | FilterNode.comparison fld op x, m => rfl
  | FilterNode.group conn children, m => by
    simp only [transformFilter, eraseFields]
    rw [eraseFieldsList_transform children m]

theorem eraseFieldsList_transform : ∀ (l : List FilterNode) (m : FieldMap),
    eraseFieldsList (transformList l m) = eraseFieldsList l
  | [], _ => rfl
  | f :: fs, m => by
    simp only [transformList, eraseFieldsList]
    rw [eraseFields_transform f m, eraseFieldsList_transform fs m]

end

/-- C9: for a map and an inverse that undoes it on every field the filter
mentions (as any bijective map's inverse does), transforming twice
reconstructs a structurally equal filter; and a transform changes nothing
but field names — erasing the field names of the transformed filter gives
back the erased original, so operators, operands, connectives and child
order are all preserved. -/
theorem transformFilter_fidelity (φ : FilterNode) (m minv : FieldMap)
    (h : ∀ fl ∈ fieldsOf φ, mapField minv (mapField m fl) = fl) :
    transformFilter (transformFilter φ m) minv = φ
    ∧ eraseFields (transformFilter φ m) = eraseFields φ :=
  ⟨transformFilter_roundtrip φ m minv h, eraseFields_transform φ m⟩

/-- C9 witness: the documentation's field map {first → firstName,
last → lastName} and its inverse reconstruct the documentation's filter. -/
theorem transformFilter_fidelity_witness :
    transformFilter
        (transformFilter
          (FilterNode.group Connective.and
            [FilterNode.comparison "first" "eq" (Operand.val (Value.str "foo")),
              FilterNode.comparison "last" "neq" (Operand.val (Value.str "bar"))])
          [("first", "firstName"), ("last", "lastName")])
        [("firstName", "first"), ("lastName", "last")]
      = FilterNode.group Connective.and
          [FilterNode.comparison "first" "eq" (Operand.val (Value.str "foo")),
            FilterNode.comparison "last" "neq" (Operand.val (Value.str "bar"))] :=
  (transformFilter_fidelity
      (FilterNode.group Connective.and
        [FilterNode.comparison "first" "eq" (Operand.val (Value.str "foo")),
          FilterNode.comparison "last" "neq" (Operand.val (Value.str "bar"))])
      [("first", "firstName"), ("last", "lastName")]
      [("firstName", "first"), ("lastName", "last")]
      (by decide)).1
